import Mathlib

/-!
Verification of the IBE-correction pipeline (`captoolbox/ibecor.py`) and the
polar-stereographic projection dispatcher (`captoolkit/tide/convert_xy_ll.py`).

Numeric values are modelled over `ℚ` (exact rationals) for the interpolation
pipeline, and over `ℝ` for the closed-form trigonometric projection.
-/

namespace Ibecor

/-- Model of `numpy.interp t xp fp` for monotonically increasing sample
points `xp`: clamp below the first sample and above the last, linear
interpolation in between.  Matches numpy's documented behaviour on strictly
increasing `xp`. -/
def npInterp (t : ℚ) : List ℚ → List ℚ → ℚ
  | [], _ => 0
  | _ :: _, [] => 0
  | [_], y0 :: _ => y0
  | x0 :: x1 :: xt, y0 :: yt =>
    match yt with
    | [] => 0
    | y1 :: yt' =>
      if t ≤ x0 then y0
      else if t ≤ x1 then y0 + (y1 - y0) * (t - x0) / (x1 - x0)
      else npInterp t (x1 :: xt) (y1 :: yt')

/-- Model of `np.arange(len(grid_coords))` cast to rationals: the pixel-index
sequence `[0, 1, ..., n-1]`. -/
def pixelIdx (n : ℕ) : List ℚ :=
  (List.range n).map (Nat.cast : ℕ → ℚ)

/-- Model of `np.all(np.diff(grid_coords) < 0)`: every consecutive difference
is negative (vacuously true for lists of length at most 1, exactly as
`np.all` of an empty array is `True`). -/
def allDiffNeg : List ℚ → Bool
  | [] => true
  | [_] => true
  | a :: b :: r => decide (b < a) && allDiffNeg (b :: r)

/-- Scalar core of `interp_pixels` (`ibecor.py`, lines 226-231): map one
interpolation coordinate to a fractional pixel location, reversing axis and
pixel sequence when the axis is strictly decreasing. -/
def interpPix (grid_coords : List ℚ) (t : ℚ) : ℚ :=
  let grid_pixels := pixelIdx grid_coords.length
  if allDiffNeg grid_coords then
    npInterp t grid_coords.reverse grid_pixels.reverse
  else
    npInterp t grid_coords grid_pixels

/-- `interp_pixels(grid_coords, interp_coords)` from `ibecor.py`:
`np.interp` applied elementwise to the interpolation coordinates. -/
def interp_pixels (grid_coords interp_coords : List ℚ) : List ℚ :=
  interp_coords.map (interpPix grid_coords)

/-- A 3-d cube of values, indexed `v[i][j][k]` along the 0-, 1-, 2-axis. -/
abbrev Cube : Type := List (List (List ℚ))

/-- Element access into the cube with `scipy.ndimage` `mode=constant`
(`cval = 0`) semantics: out-of-range indices read as `0`. -/
def getV (v : Cube) (i j k : ℤ) : ℚ :=
  if 0 ≤ i ∧ 0 ≤ j ∧ 0 ≤ k then
    (((v.getD i.toNat []).getD j.toNat []).getD k.toNat 0)
  else 0

/-- Model of `scipy.ndimage.map_coordinates(v, [a,b,c], order=1)` at a single
coordinate triple: order-1 (trilinear) interpolation on the unit cell
containing `(a,b,c)` in pixel-index space. -/
def triInterp (v : Cube) (a b c : ℚ) : ℚ :=
  let i : ℤ := ⌊a⌋
  let j : ℤ := ⌊b⌋
  let k : ℤ := ⌊c⌋
  let fa : ℚ := a - i
  let fb : ℚ := b - j
  let fc : ℚ := c - k
  (1 - fa) * (1 - fb) * (1 - fc) * getV v i j k
    + (1 - fa) * (1 - fb) * fc * getV v i j (k + 1)
    + (1 - fa) * fb * (1 - fc) * getV v i (j + 1) k
    + (1 - fa) * fb * fc * getV v i (j + 1) (k + 1)
    + fa * (1 - fb) * (1 - fc) * getV v (i + 1) j k
    + fa * (1 - fb) * fc * getV v (i + 1) j (k + 1)
    + fa * fb * (1 - fc) * getV v (i + 1) (j + 1) k
    + fa * fb * fc * getV v (i + 1) (j + 1) (k + 1)

/-- A (possibly multi-dimensional) numpy array of rationals: a shape together
with the row-major flat data. -/
structure NDArray where
  shape : List ℕ
  data : List ℚ
deriving DecidableEq

/-- Well-formedness of an `NDArray`: the flat data has exactly as many
elements as the shape prescribes. -/
def NDArray.wf (a : NDArray) : Prop :=
  a.data.length = a.shape.prod

/-- Model of the in-place `arr.shape = -1` flattening in `interp3d`. -/
def flatten1d (a : NDArray) : NDArray :=
  ⟨[a.data.length], a.data⟩

/-- `interp3d(x, y, z, v, xi, yi, zi)` from `ibecor.py` (lines 203-242).

The function records `orig_shape = xi.shape`, flattens the three query
arrays in place, maps each axis through `interp_pixels`, then calls
`scipy.ndimage.map_coordinates(v, coords, order=1)` and reshapes the output
to `orig_shape`.  `map_coordinates` raises (numpy cannot stack ragged
coordinate arrays into a `(3, N)` array) when the flattened query arrays
have mismatched lengths, modelled here by `none`.  The returned quadruple is
`(output, xi, yi, zi)` where the last three components are the caller's
query arrays as left after the in-place flattening. -/
def interp3d (x y z : List ℚ) (v : Cube) (xi yi zi : NDArray) :
    Option (NDArray × NDArray × NDArray × NDArray) :=
  let origShape := xi.shape
  let xif := flatten1d xi
  let yif := flatten1d yi
  let zif := flatten1d zi
  let cx := interp_pixels x xif.data
  let cy := interp_pixels y yif.data
  let cz := interp_pixels z zif.data
  if xif.data.length = yif.data.length ∧ yif.data.length = zif.data.length then
    some (⟨origShape, (cx.zip (cy.zip cz)).map (fun p => triInterp v p.1 p.2.1 p.2.2)⟩,
      xif, yif, zif)
  else none

/-- `wrap_to_180(lon)` from `ibecor.py` (lines 245-248): subtract `360` from
every entry strictly greater than `180`; all other entries (including those
at or below `-180`) are left unchanged. -/
def wrap_to_180 (lon : List ℚ) : List ℚ :=
  lon.map (fun v => if 180 < v then v - 360 else v)

/-- A calendar instant `(Y, M, D, h, m, s)` as passed to
`datetime.datetime(*epoch)`. -/
structure DateTime where
  year : ℤ
  month : ℕ
  day : ℕ
  hour : ℤ
  minute : ℤ
  second : ℤ
deriving DecidableEq

/-- Proleptic-Gregorian leap-year test, as in Python's `datetime` module. -/
def isLeap (y : ℤ) : Bool :=
  (y % 4 == 0 && y % 100 != 0) || (y % 400 == 0)

/-- Days in the whole years strictly before year `y`
(`datetime._days_before_year`). -/
def daysBeforeYear (y : ℤ) : ℤ :=
  (y - 1) * 365 + (y - 1) / 4 - (y - 1) / 100 + (y - 1) / 400

/-- Length of month `m` (1-based) of year `y`. -/
def daysInMonth (y : ℤ) (m : ℕ) : ℤ :=
  ([31, if isLeap y then 29 else 28, 31, 30, 31, 30,
    31, 31, 30, 31, 30, 31].getD (m - 1) 0 : ℤ)

/-- Days in the months of year `y` strictly before month `m`
(`datetime._days_before_month`). -/
def daysBeforeMonth (y : ℤ) (m : ℕ) : ℤ :=
  ((List.range (m - 1)).map (fun i => daysInMonth y (i + 1))).sum

/-- `datetime.date.toordinal`: day number of the given civil date in the
proleptic Gregorian calendar, with `0001-01-01` being day `1`. -/
def toOrdinal (y : ℤ) (m d : ℕ) : ℤ :=
  daysBeforeYear y + daysBeforeMonth y m + (d : ℤ)

/-- Absolute second count of a `datetime` instant; differences of this
quantity model `(t2 - t1).total_seconds()` for `datetime` values. -/
def dtSecs (e : DateTime) : ℤ :=
  86400 * toOrdinal e.year e.month e.day + 3600 * e.hour + 60 * e.minute + e.second

/-- `secs_to_hours(secs, epoch1, epoch2)` from `ibecor.py` (lines 159-169):
convert seconds since `epoch1` to hours since `epoch2` (keeping `epoch1`
when `epoch2` is `None`). -/
def secs_to_hours (secs : ℚ) (epoch1 : DateTime) (epoch2 : Option DateTime) : ℚ :=
  let e1 := epoch1
  let e2 := epoch2.getD epoch1
  let secs_btw_epochs : ℚ := ((dtSecs e2 : ℚ) - (dtSecs e1 : ℚ))
  (secs - secs_btw_epochs) / 3600

/-- Global state mutated around the per-file loop of `ibecor.py`: the three
coordinate axes and the value cube of the shared IBE correction cube. -/
structure CubeState where
  t_ibe : List ℚ
  y_ibe : List ℚ
  x_ibe : List ℚ
  z_ibe : Cube
deriving DecidableEq

/-- Effect of one iteration of the per-file loop (`ibecor.py`, lines
355-372) on the shared cube state: the loop body rebinds the global
`x_ibe` to `wrap_to_180(x_ibe)` (an in-place mutation of the shared axis);
`t_ibe`, `y_ibe` and `z_ibe` are only read. -/
def processFileGlobals (s : CubeState) : CubeState :=
  { s with x_ibe := wrap_to_180 s.x_ibe }

/-! ### Lemmas about the 1-d interpolation primitive -/

/-- `np.interp` evaluated exactly at the `i`-th sample point of a strictly
increasing sample list returns exactly the `i`-th sample value. -/
lemma npInterp_node : ∀ (xs ys : List ℚ), List.Sorted (· < ·) xs → ys.length = xs.length →
    ∀ (i : ℕ) (hi : i < xs.length) (hi' : i < ys.length),
    npInterp (xs.get ⟨i, hi⟩) xs ys = ys.get ⟨i, hi'⟩ := by
  intro xs
  induction xs with
  | nil => intro ys _ _ i hi _; simp at hi
  | cons x0 xt ih =>
    intro ys hs hlen i hi hi'
    cases ys with
    | nil => simp at hi'
    | cons y0 yt =>
      have hhead : ∀ b ∈ xt, x0 < b := (List.sorted_cons.mp hs).1
      have htail : List.Sorted (· < ·) xt := (List.sorted_cons.mp hs).2
      cases xt with
      | nil =>
        have hz : i = 0 := by simp at hi; omega
        subst hz
        simp [npInterp]
      | cons x1 xt' =>
        cases yt with
        | nil => simp at hlen
        | cons y1 yt' =>
          cases i with
          | zero =>
            show npInterp x0 (x0 :: x1 :: xt') (y0 :: y1 :: yt') = y0
            simp only [npInterp]
            rw [if_pos le_rfl]
          | succ n =>
            have hn : n < (x1 :: xt').length := by simp at hi ⊢; omega
            have hget : (x0 :: x1 :: xt').get ⟨n + 1, hi⟩ = (x1 :: xt').get ⟨n, hn⟩ := rfl
            have hmem : (x1 :: xt').get ⟨n, hn⟩ ∈ x1 :: xt' := List.get_mem _ _ _
            have hx0 : x0 < (x1 :: xt').get ⟨n, hn⟩ := hhead _ hmem
            cases n with
            | zero =>
              show npInterp x1 (x0 :: x1 :: xt') (y0 :: y1 :: yt') = y1
              have hlt : x0 < x1 := hx0
              have hne : x1 - x0 ≠ 0 := sub_ne_zero.mpr (ne_of_gt hlt)
              simp only [npInterp]
              rw [if_neg (not_le.mpr hlt), if_pos le_rfl]
              field_simp
            | succ m =>
              have hm : m < xt'.length := by simp at hn ⊢; omega
              have hget' : (x1 :: xt').get ⟨m + 1, hn⟩ = xt'.get ⟨m, hm⟩ := rfl
              have hx1 : x1 < xt'.get ⟨m, hm⟩ :=
                (List.sorted_cons.mp htail).1 _ (List.get_mem _ _ _)
              have hq : (x0 :: x1 :: xt').get ⟨m + 2, hi⟩ = xt'.get ⟨m, hm⟩ := rfl
              rw [hq]
              show npInterp (xt'.get ⟨m, hm⟩) (x0 :: x1 :: xt') (y0 :: y1 :: yt') =
                (y0 :: y1 :: yt').get ⟨m + 2, hi'⟩
              simp only [npInterp]
              rw [if_neg (not_le.mpr (hq ▸ hx0)), if_neg (not_le.mpr hx1)]
              have hlen' : (y1 :: yt').length = (x1 :: xt').length := by simp at hlen ⊢; omega
              have hm1 : m + 1 < (x1 :: xt').length := hn
              have hm1' : m + 1 < (y1 :: yt').length := by simp at hlen ⊢; omega
              have := ih (y1 :: yt') htail hlen' (m + 1) hm1 hm1'
              rw [hget'] at this
              exact this

/-- `np.interp` at or below the first sample point returns the first sample
value (left clamp). -/
lemma npInterp_low (t x0 : ℚ) (xt : List ℚ) (y0 : ℚ) (yt : List ℚ)
    (hlen : yt.length = xt.length) (h : t ≤ x0) :
    npInterp t (x0 :: xt) (y0 :: yt) = y0 := by
  cases xt with
  | nil => simp [npInterp]
  | cons x1 xt' =>
    cases yt with
    | nil => simp at hlen
    | cons y1 yt' =>
      simp only [npInterp]
      rw [if_pos h]

/-- Auxiliary: the last element of a nonempty list, with a default. -/
def lastD : List ℚ → ℚ → ℚ
  | [], d => d
  | [a], _ => a
  | _ :: b :: t, d => lastD (b :: t) d

lemma lastD_concat (l : List ℚ) (a d : ℚ) : lastD (l ++ [a]) d = a := by
  induction l with
  | nil => rfl
  | cons x xt ih =>
    cases xt with
    | nil => rfl
    | cons b t => exact ih

/-- `np.interp` at or above every sample point of a strictly increasing
sample list returns the last sample value (right clamp). -/
lemma npInterp_high : ∀ (xs ys : List ℚ), List.Sorted (· < ·) xs → ys.length = xs.length →
    ∀ t : ℚ, (∀ v ∈ xs, v ≤ t) → xs ≠ [] → npInterp t xs ys = lastD ys 0 := by
  intro xs
  induction xs with
  | nil => intro ys _ _ t _ hne; exact absurd rfl hne
  | cons x0 xt ih =>
    intro ys hs hlen t hall _
    cases ys with
    | nil => simp at hlen
    | cons y0 yt =>
      cases xt with
      | nil =>
        have : yt = [] := by simpa using hlen
        subst this
        simp [npInterp, lastD]
      | cons x1 xt' =>
        cases yt with
        | nil => simp at hlen
        | cons y1 yt' =>
          have hx01 : x0 < x1 := (List.sorted_cons.mp hs).1 _ (by simp)
          have hx1t : x1 ≤ t := hall _ (by simp)
          have hx0t : ¬ t ≤ x0 := not_le.mpr (lt_of_lt_of_le hx01 hx1t)
          simp only [npInterp]
          rw [if_neg hx0t]
          cases xt' with
          | nil =>
            have hyt : yt' = [] := by simpa using hlen
            subst hyt
            have hne : x1 - x0 ≠ 0 := sub_ne_zero.mpr (ne_of_gt hx01)
            by_cases ht : t ≤ x1
            · have ht1 : t = x1 := le_antisymm ht hx1t
              subst ht1
              rw [if_pos le_rfl, show lastD [y0, y1] 0 = y1 from rfl]
              field_simp
            · rw [if_neg ht]
              simp [npInterp, lastD]
          | cons x2 xt'' =>
            have htail : List.Sorted (· < ·) (x1 :: x2 :: xt'') := (List.sorted_cons.mp hs).2
            have hx12 : x1 < x2 := (List.sorted_cons.mp htail).1 _ (by simp)
            have hx2t : x2 ≤ t := hall _ (by simp)
            have hx1t' : ¬ t ≤ x1 := not_le.mpr (lt_of_lt_of_le hx12 hx2t)
            rw [if_neg hx1t']
            have hall' : ∀ v ∈ x1 :: x2 :: xt'', v ≤ t := by
              intro v hv
              exact hall v (by simp at hv ⊢; tauto)
            have hlen' : (y1 :: yt').length = (x1 :: x2 :: xt'').length := by
              simp at hlen ⊢; omega
            have := ih (y1 :: yt') htail hlen' t hall' (by simp)
            rw [this]
            rfl

lemma pixelIdx_length (n : ℕ) : (pixelIdx n).length = n := by
  rw [pixelIdx, List.length_map, List.length_range]

lemma pixelIdx_get (n i : ℕ) (hi : i < (pixelIdx n).length) :
    (pixelIdx n).get ⟨i, hi⟩ = (i : ℚ) := by
  rw [List.get_eq_getElem]
  simp only [pixelIdx, List.getElem_map, List.getElem_range]

/-- A strictly decreasing axis passes the `np.all(np.diff(...) < 0)` test. -/
lemma allDiffNeg_of_sorted_gt : ∀ xs : List ℚ, List.Sorted (· > ·) xs → allDiffNeg xs = true := by
  intro xs
  induction xs with
  | nil => intro _; rfl
  | cons a t ih =>
    intro hs
    cases t with
    | nil => rfl
    | cons b t' =>
      have hab : b < a := (List.sorted_cons.mp hs).1 _ (by simp)
      have hrest := ih (List.sorted_cons.mp hs).2
      simp [allDiffNeg, hab, hrest]

/-- A strictly increasing axis of length at least two fails the
`np.all(np.diff(...) < 0)` test. -/
lemma allDiffNeg_eq_false_of_sorted_lt (x0 x1 : ℚ) (xt : List ℚ)
    (hs : List.Sorted (· < ·) (x0 :: x1 :: xt)) :
    allDiffNeg (x0 :: x1 :: xt) = false := by
  have h01 : x0 < x1 := (List.sorted_cons.mp hs).1 _ (by simp)
  simp [allDiffNeg, lt_asymm h01]

/-- The pixel mapper hits grid nodes exactly: on a strictly monotone
(increasing or decreasing) axis, the axis value at index `i` maps to the
fractional pixel location `i`. -/
lemma interpPix_node (xs : List ℚ)
    (h : List.Sorted (· < ·) xs ∨ List.Sorted (· > ·) xs)
    (i : ℕ) (hi : i < xs.length) :
    interpPix xs (xs.get ⟨i, hi⟩) = (i : ℚ) := by
  rcases h with hinc | hdec
  · cases xs with
    | nil => simp at hi
    | cons x0 xt =>
      cases xt with
      | nil =>
        have hz : i = 0 := by simp at hi; omega
        subst hz
        simp [interpPix, allDiffNeg, pixelIdx, npInterp]
      | cons x1 xt' =>
        have hf := allDiffNeg_eq_false_of_sorted_lt _ _ _ hinc
        have hlen : (pixelIdx (x0 :: x1 :: xt').length).length = (x0 :: x1 :: xt').length :=
          pixelIdx_length _
        have hi' : i < (pixelIdx (x0 :: x1 :: xt').length).length := by rw [hlen]; exact hi
        have := npInterp_node (x0 :: x1 :: xt') (pixelIdx (x0 :: x1 :: xt').length)
          hinc hlen i hi hi'
        rw [pixelIdx_get _ _ hi'] at this
        simpa [interpPix, hf] using this
  · have ht := allDiffNeg_of_sorted_gt _ hdec
    have hrev : List.Sorted (· < ·) xs.reverse := List.pairwise_reverse.mpr hdec
    have hj : xs.length - 1 - i < xs.reverse.length := by
      rw [List.length_reverse]; omega
    have hjp : xs.length - 1 - i < (pixelIdx xs.length).reverse.length := by
      rw [List.length_reverse, pixelIdx_length]; omega
    have hlenr : (pixelIdx xs.length).reverse.length = xs.reverse.length := by
      rw [List.length_reverse, List.length_reverse, pixelIdx_length]
    have hnode := npInterp_node xs.reverse (pixelIdx xs.length).reverse hrev hlenr
      (xs.length - 1 - i) hj hjp
    have hq : xs.reverse.get ⟨xs.length - 1 - i, hj⟩ = xs.get ⟨i, hi⟩ := by
      have h1 : xs.reverse.get ⟨xs.length - 1 - i, hj⟩ = xs.reverse[xs.length - 1 - i] := rfl
      have h2 : xs.length - 1 - (xs.length - 1 - i) = i := by omega
      rw [h1, List.getElem_reverse]
      simp only [h2]
      rfl
    have hp : (pixelIdx xs.length).reverse.get ⟨xs.length - 1 - i, hjp⟩ = (i : ℚ) := by
      have h1 : (pixelIdx xs.length).reverse.get ⟨xs.length - 1 - i, hjp⟩
          = (pixelIdx xs.length).reverse[xs.length - 1 - i] := rfl
      have h3 : (pixelIdx xs.length).length - 1 - (xs.length - 1 - i) = i := by
        rw [pixelIdx_length]; omega
      rw [h1, List.getElem_reverse]
      simp only [h3]
      exact pixelIdx_get xs.length i (by rw [pixelIdx_length]; omega)
    rw [hq, hp] at hnode
    simp only [interpPix, ht, if_true]
    exact hnode

lemma pixelIdx_cons (m : ℕ) :
    pixelIdx (m + 1) = 0 :: ((List.range m).map Nat.succ).map (Nat.cast : ℕ → ℚ) := by
  simp [pixelIdx, List.range_succ_eq_map]

/-- Left clamp of the pixel mapper on a strictly increasing axis: targets at
or below the first axis value map to pixel `0`. -/
lemma interpPix_low (x0 : ℚ) (xt : List ℚ) (hinc : List.Sorted (· < ·) (x0 :: xt))
    (t : ℚ) (h : t ≤ x0) : interpPix (x0 :: xt) t = 0 := by
  cases xt with
  | nil => simp [interpPix, allDiffNeg, pixelIdx, npInterp]
  | cons x1 xt' =>
    have hf := allDiffNeg_eq_false_of_sorted_lt _ _ _ hinc
    have hpix : pixelIdx (x0 :: x1 :: xt').length
        = 0 :: ((List.range (x1 :: xt').length).map Nat.succ).map (Nat.cast : ℕ → ℚ) := by
      rw [show (x0 :: x1 :: xt').length = (x1 :: xt').length + 1 from rfl, pixelIdx_cons]
    simp only [interpPix, hf, Bool.false_eq_true, if_false, hpix]
    exact npInterp_low t x0 (x1 :: xt') 0 _ (by simp) h

/-- Right clamp of the pixel mapper on a strictly increasing axis: targets at
or above every axis value map to the last pixel `M - 1`. -/
lemma interpPix_high (x0 : ℚ) (xt : List ℚ) (hinc : List.Sorted (· < ·) (x0 :: xt))
    (t : ℚ) (hall : ∀ v ∈ x0 :: xt, v ≤ t) :
    interpPix (x0 :: xt) t = (((x0 :: xt).length - 1 : ℕ) : ℚ) := by
  cases xt with
  | nil => simp [interpPix, allDiffNeg, pixelIdx, npInterp]
  | cons x1 xt' =>
    have hf := allDiffNeg_eq_false_of_sorted_lt _ _ _ hinc
    have hlenpix : (pixelIdx (x0 :: x1 :: xt').length).length = (x0 :: x1 :: xt').length :=
      pixelIdx_length _
    have hh := npInterp_high (x0 :: x1 :: xt') (pixelIdx (x0 :: x1 :: xt').length)
      hinc hlenpix t hall (by simp)
    have hlast : lastD (pixelIdx (x0 :: x1 :: xt').length) 0
        = (((x0 :: x1 :: xt').length - 1 : ℕ) : ℚ) := by
      rw [show (x0 :: x1 :: xt').length = (xt'.length + 1) + 1 from by simp,
        pixelIdx, List.range_succ, List.map_append, List.map_cons, List.map_nil, lastD_concat]
      norm_num
    rw [hlast] at hh
    simpa [interpPix, hf] using hh

/-- The pixel mapper sends the midpoint of a two-point increasing axis to the
middle pixel `1/2`. -/
lemma interpPix_mid (a b : ℚ) (hab : a < b) : interpPix [a, b] ((a + b) / 2) = 1 / 2 := by
  have hf : allDiffNeg [a, b] = false := by simp [allDiffNeg, lt_asymm hab]
  have hpix : pixelIdx 2 = [0, 1] := by
    norm_num [pixelIdx, show List.range 2 = [0, 1] from rfl]
  have hne : b - a ≠ 0 := sub_ne_zero.mpr (ne_of_gt hab)
  have hstep : interpPix [a, b] ((a + b) / 2) = npInterp ((a + b) / 2) [a, b] [0, 1] := by
    simp [interpPix, hf, hpix]
  rw [hstep]
  simp only [npInterp]
  rw [if_neg (by intro hc; nlinarith), if_pos (by nlinarith)]
  field_simp
  ring

/-! ### Lemmas about the trilinear sampler -/

/-- Order-1 `map_coordinates` at exact integer pixel coordinates returns the
cube value stored at those coordinates. -/
lemma triInterp_natCast (v : Cube) (i j k : ℕ) :
    triInterp v (i : ℚ) (j : ℚ) (k : ℚ) = getV v (i : ℤ) (j : ℤ) (k : ℤ) := by
  simp only [triInterp, Int.floor_natCast, Int.cast_natCast, sub_self]
  ring

/-- Unfolding `interp3d` on single-point queries of shape `[1]`. -/
lemma interp3d_single (x y z : List ℚ) (v : Cube) (qx qy qz : ℚ) :
    interp3d x y z v ⟨[1], [qx]⟩ ⟨[1], [qy]⟩ ⟨[1], [qz]⟩
      = some (⟨[1], [triInterp v (interpPix x qx) (interpPix y qy) (interpPix z qz)]⟩,
          ⟨[1], [qx]⟩, ⟨[1], [qy]⟩, ⟨[1], [qz]⟩) := by
  simp [interp3d, flatten1d, interp_pixels]

/-- Order-1 `map_coordinates` at the centre of a 2×2×2 cube returns the
arithmetic mean of the eight corner values. -/
lemma triInterp_half (v000 v001 v010 v011 v100 v101 v110 v111 : ℚ) :
    triInterp [[[v000, v001], [v010, v011]], [[v100, v101], [v110, v111]]]
        (1 / 2) (1 / 2) (1 / 2)
      = (v000 + v001 + v010 + v011 + v100 + v101 + v110 + v111) / 8 := by
  have hf : ⌊(1 / 2 : ℚ)⌋ = 0 := by
    rw [Int.floor_eq_zero_iff]
    constructor <;> norm_num
  simp only [triInterp, hf]
  norm_num [getV]
  ring

/-- Unfolding `interp3d` when the flattened query lengths agree. -/
lemma interp3d_eq_some (x y z : List ℚ) (v : Cube) (xi yi zi : NDArray)
    (hxy : xi.data.length = yi.data.length) (hyz : yi.data.length = zi.data.length) :
    interp3d x y z v xi yi zi
      = some (⟨xi.shape,
          ((interp_pixels x xi.data).zip
            ((interp_pixels y yi.data).zip (interp_pixels z zi.data))).map
            (fun p => triInterp v p.1 p.2.1 p.2.2)⟩,
          flatten1d xi, flatten1d yi, flatten1d zi) := by
  simp [interp3d, flatten1d, hxy, hyz]

/-- `interp3d` errors out (models the `scipy` exception on ragged coordinate
stacks) when the flattened query lengths disagree. -/
lemma interp3d_eq_none (x y z : List ℚ) (v : Cube) (xi yi zi : NDArray)
    (h : ¬ (xi.data.length = yi.data.length ∧ yi.data.length = zi.data.length)) :
    interp3d x y z v xi yi zi = none := by
  simp only [interp3d]
  rw [if_neg (show ¬ ((flatten1d xi).data.length = (flatten1d yi).data.length ∧
    (flatten1d yi).data.length = (flatten1d zi).data.length) from h)]

/-! ### Lemmas about the longitude wrap -/

/-- The one-sided wrap is a map over entries. -/
lemma wrap_to_180_pointwise (lon : List ℚ) :
    wrap_to_180 lon = lon.map (fun v => if 180 < v then v - 360 else v) := rfl

/-- The one-sided wrap is idempotent on inputs not exceeding `540`. -/
lemma wrap_to_180_idem (lon : List ℚ) (h : ∀ v ∈ lon, v ≤ 540) :
    wrap_to_180 (wrap_to_180 lon) = wrap_to_180 lon := by
  rw [wrap_to_180, wrap_to_180, List.map_map]
  refine List.map_congr_left ?_
  intro v hv
  have hv540 := h v hv
  by_cases hc : 180 < v
  · have : ¬ (180 < v - 360) := by linarith
    simp [Function.comp, hc, this]
  · simp [Function.comp, hc]

end Ibecor

namespace ConvertXyLl

/-- Forward branch (`BF = 'F'`) of `xy_ll_PSNorth`
(`captoolkit/tide/convert_xy_ll.py`, lines 103-106): closed-form
polar-stereographic projection from geographic `(i1, i2) = (lon, lat)` to
projected `(o1, o2) = (x, y)`. -/
noncomputable def xy_ll_PSNorth_F (i1 i2 : ℝ) : ℝ × ℝ :=
  ((90 - i2) * (1117 / 10) * Real.cos (i1 / 180 * Real.pi),
   (90 - i2) * (1117 / 10) * Real.sin (i1 / 180 * Real.pi))

/-- Backward branch (`BF = 'B'`) of `xy_ll_PSNorth` (lines 108-113):
`o1 = 90 - sqrt(i1² + i2²)/111.7`, `o2 = arctan2(i2, i1)·180/π`
(`np.arctan2(y, x)` is the argument of the complex number `x + y·i`), and
`360` is added to `o1` where `o1 < 0`. -/
noncomputable def xy_ll_PSNorth_B (i1 i2 : ℝ) : ℝ × ℝ :=
  let o1 : ℝ := 90 - Real.sqrt (i1 ^ 2 + i2 ^ 2) / (1117 / 10)
  let o2 : ℝ := (((i1 : ℂ) + (i2 : ℂ) * Complex.I).arg) * 180 / Real.pi
  (if o1 < 0 then o1 + 360 else o1, o2)

end ConvertXyLl

namespace Ibecor

/-- C1: the trilinear cube sampler performs order-1 (trilinear) interpolation
in pixel-index space: for every cube with strictly monotone (increasing or
decreasing) coordinate axes, sampling exactly at a grid node returns exactly
that node's cube value, and for a 2×2×2 cube a single query at the centroid
in `(t, y, x)` returns the arithmetic mean of the eight corner values. -/
theorem interp3d_node_exact_and_centroid_mean
    (xax yax zax : List ℚ) (v : Cube) (i j k : ℕ)
    (hx : List.Sorted (· < ·) xax ∨ List.Sorted (· > ·) xax)
    (hy : List.Sorted (· < ·) yax ∨ List.Sorted (· > ·) yax)
    (hz : List.Sorted (· < ·) zax ∨ List.Sorted (· > ·) zax)
    (hi : i < xax.length) (hj : j < yax.length) (hk : k < zax.length)
    (t0 t1 u0 u1 w0 w1 v000 v001 v010 v011 v100 v101 v110 v111 : ℚ)
    (ht : t0 < t1) (hu : u0 < u1) (hw : w0 < w1) :
    interp3d xax yax zax v ⟨[1], [xax.get ⟨i, hi⟩]⟩ ⟨[1], [yax.get ⟨j, hj⟩]⟩
        ⟨[1], [zax.get ⟨k, hk⟩]⟩
      = some (⟨[1], [getV v (i : ℤ) (j : ℤ) (k : ℤ)]⟩, ⟨[1], [xax.get ⟨i, hi⟩]⟩,
          ⟨[1], [yax.get ⟨j, hj⟩]⟩, ⟨[1], [zax.get ⟨k, hk⟩]⟩)
    ∧ interp3d [t0, t1] [u0, u1] [w0, w1]
        [[[v000, v001], [v010, v011]], [[v100, v101], [v110, v111]]]
        ⟨[1], [(t0 + t1) / 2]⟩ ⟨[1], [(u0 + u1) / 2]⟩ ⟨[1], [(w0 + w1) / 2]⟩
      = some (⟨[1], [(v000 + v001 + v010 + v011 + v100 + v101 + v110 + v111) / 8]⟩,
          ⟨[1], [(t0 + t1) / 2]⟩, ⟨[1], [(u0 + u1) / 2]⟩, ⟨[1], [(w0 + w1) / 2]⟩) := by
  constructor
  · rw [interp3d_single, interpPix_node xax hx i hi, interpPix_node yax hy j hj,
      interpPix_node zax hz k hk, triInterp_natCast]
  · rw [interp3d_single, interpPix_mid t0 t1 ht, interpPix_mid u0 u1 hu,
      interpPix_mid w0 w1 hw, triInterp_half]

/-- Witness for C1 at concrete inputs: node sampling on the cube
`[[[1,2],[3,4]],[[5,6],[7,8]]]` with axes `[0,10]`, `[5,3]` (descending),
`[7]` at node `(1,0,0)` returns `5`; the centroid query of the same cube on
unit axes returns the corner mean `9/2`. -/
theorem interp3d_node_exact_and_centroid_mean_witness :
    ((0 : ℚ) < 10) ∧
    interp3d [0, 10] [5, 3] [7] [[[1, 2], [3, 4]], [[5, 6], [7, 8]]]
        ⟨[1], [10]⟩ ⟨[1], [5]⟩ ⟨[1], [7]⟩
      = some (⟨[1], [5]⟩, ⟨[1], [10]⟩, ⟨[1], [5]⟩, ⟨[1], [7]⟩) ∧
    interp3d [0, 1] [0, 1] [0, 1] [[[1, 2], [3, 4]], [[5, 6], [7, 8]]]
        ⟨[1], [1 / 2]⟩ ⟨[1], [1 / 2]⟩ ⟨[1], [1 / 2]⟩
      = some (⟨[1], [9 / 2]⟩, ⟨[1], [1 / 2]⟩, ⟨[1], [1 / 2]⟩, ⟨[1], [1 / 2]⟩) := by
  have h := interp3d_node_exact_and_centroid_mean [0, 10] [5, 3] [7]
    [[[1, 2], [3, 4]], [[5, 6], [7, 8]]] 1 0 0
    (Or.inl (by norm_num [List.sorted_cons]))
    (Or.inr (by norm_num [List.sorted_cons]))
    (Or.inl (by norm_num [List.sorted_cons]))
    (by norm_num) (by norm_num) (by norm_num)
    0 1 0 1 0 1 1 2 3 4 5 6 7 8 (by norm_num) (by norm_num) (by norm_num)
  refine ⟨by norm_num, ?_, ?_⟩
  · have h1 := h.1
    norm_num [getV] at h1
    exact h1
  · have h2 := h.2
    norm_num at h2
    exact h2

/-- C2: the axis-to-pixel mapper returns fractional pixel indices by linear
interpolation against `[0..M-1]`, reversing axis and pixels for strictly
decreasing axes and clamping out-of-range targets to the nearest edge pixel;
on axis `[0,10,20,30]` values `15, -5, 35` map to `1.5, 0, 3`, and on the
descending axis `[30,20,10,0]` value `15` also maps to `1.5`. -/
theorem interp_pixels_maps_axis_to_pixels (x0 t : ℚ) (xt : List ℚ)
    (hinc : List.Sorted (· < ·) (x0 :: xt)) :
    (t ≤ x0 → interp_pixels (x0 :: xt) [t] = [0]) ∧
    ((∀ v ∈ x0 :: xt, v ≤ t) →
      interp_pixels (x0 :: xt) [t] = [(((x0 :: xt).length - 1 : ℕ) : ℚ)]) ∧
    interp_pixels [0, 10, 20, 30] [15, -5, 35] = [3 / 2, 0, 3] ∧
    interp_pixels [30, 20, 10, 0] [15] = [3 / 2] := by
  refine ⟨fun h => ?_, fun hall => ?_, ?_, ?_⟩
  · simp [interp_pixels, interpPix_low x0 xt hinc t h]
  · simp [interp_pixels, interpPix_high x0 xt hinc t hall]
  · norm_num [interp_pixels, interpPix, allDiffNeg, npInterp, pixelIdx,
      show List.range 4 = [0, 1, 2, 3] from rfl]
  · norm_num [interp_pixels, interpPix, allDiffNeg, npInterp, pixelIdx,
      show List.range 4 = [0, 1, 2, 3] from rfl]

/-- Witness for C2: on axis `[0,10,20,30]`, the out-of-range target `-5`
clamps to pixel `0` and the out-of-range target `35` clamps to pixel `3`. -/
theorem interp_pixels_maps_axis_to_pixels_witness :
    ((-5 : ℚ) ≤ 0) ∧ interp_pixels [0, 10, 20, 30] [-5] = [0] ∧
    interp_pixels [0, 10, 20, 30] [35] = [3] := by
  have h := interp_pixels_maps_axis_to_pixels 0 (-5) [10, 20, 30]
    (by norm_num [List.sorted_cons])
  have h' := interp_pixels_maps_axis_to_pixels 0 35 [10, 20, 30]
    (by norm_num [List.sorted_cons])
  refine ⟨by norm_num, h.1 (by norm_num), ?_⟩
  have hall : ∀ v ∈ ([0, 10, 20, 30] : List ℚ), v ≤ 35 := by
    intro v hv
    fin_cases hv <;> norm_num
  have := h'.2.1 hall
  simpa using this

/-- C3: on query arrays of equal (possibly multi-dimensional) shape, the
trilinear cube sampler succeeds and its result's shape equals the query
arrays' shape. -/
theorem interp3d_output_shape_matches_query_shape
    (x y z : List ℚ) (v : Cube) (xi yi zi : NDArray)
    (hwx : xi.wf) (hwy : yi.wf) (hwz : zi.wf)
    (hxy : xi.shape = yi.shape) (hyz : yi.shape = zi.shape) :
    ∃ out r1 r2 r3, interp3d x y z v xi yi zi = some (out, r1, r2, r3) ∧
      out.shape = xi.shape := by
  have h1 : xi.data.length = yi.data.length := by
    rw [NDArray.wf] at hwx hwy
    rw [hwx, hwy, hxy]
  have h2 : yi.data.length = zi.data.length := by
    rw [NDArray.wf] at hwy hwz
    rw [hwy, hwz, hyz]
  exact ⟨_, _, _, _, interp3d_eq_some x y z v xi yi zi h1 h2, rfl⟩

/-- Witness for C3: shape `(2,3)` queries yield a shape `(2,3)` result. -/
theorem interp3d_output_shape_matches_query_shape_witness :
    (⟨[2, 3], [1, 2, 3, 4, 5, 6]⟩ : NDArray).wf ∧
    (∃ out r1 r2 r3,
      interp3d [0] [0] [0] [[[0]]] ⟨[2, 3], [1, 2, 3, 4, 5, 6]⟩
          ⟨[2, 3], [1, 2, 3, 4, 5, 6]⟩ ⟨[2, 3], [1, 2, 3, 4, 5, 6]⟩
        = some (out, r1, r2, r3) ∧ out.shape = [2, 3]) := by
  refine ⟨by norm_num [NDArray.wf], ?_⟩
  exact interp3d_output_shape_matches_query_shape [0] [0] [0] [[[0]]] _ _ _
    (by norm_num [NDArray.wf]) (by norm_num [NDArray.wf]) (by norm_num [NDArray.wf]) rfl rfl

/-- C4 counterexample: converting seconds-since-1970 value `0` to hours
since 1900-01-01 returns `+613608`, not the claimed `-613608` (the instant
1970-01-01 lies after 1900-01-01, so the elapsed hours are positive). -/
theorem secs_to_hours_1970_to_1900_counterexample :
    secs_to_hours 0 ⟨1970, 1, 1, 0, 0, 0⟩ (some ⟨1900, 1, 1, 0, 0, 0⟩) = 613608 ∧
    (613608 : ℚ) ≠ -613608 := by
  constructor
  · norm_num [secs_to_hours, dtSecs, toOrdinal, daysBeforeYear, daysBeforeMonth]
  · norm_num

/-- C4 amended: the epoch converter computes
`hours = (seconds - (epochB - epochA)) / 3600`, and converting the
seconds-since-1970 value `0` to hours since 1900-01-01 returns `+613608`
(70 years including 17 leap days, in hours). -/
theorem secs_to_hours_formula_and_value (secs : ℚ) (e1 e2 : DateTime) :
    secs_to_hours secs e1 (some e2)
        = (secs - ((dtSecs e2 : ℚ) - (dtSecs e1 : ℚ))) / 3600 ∧
    secs_to_hours 0 ⟨1970, 1, 1, 0, 0, 0⟩ (some ⟨1900, 1, 1, 0, 0, 0⟩) = 613608 :=
  ⟨rfl, by norm_num [secs_to_hours, dtSecs, toOrdinal, daysBeforeYear, daysBeforeMonth]⟩

/-- C5 counterexample: `wrap_to_180` leaves `180` and `-181` unchanged, and
neither lies strictly within `[-180, 180)`. -/
theorem wrap_to_180_outside_Ico_counterexample :
    wrap_to_180 [180, -181] = [180, -181] ∧ ¬ ((180 : ℚ) < 180) ∧
    ¬ ((-180 : ℚ) ≤ -181) := by
  norm_num [wrap_to_180]

/-- C5 amended: the normalizer subtracts `360` exactly from entries above
`180` and leaves the rest unchanged; consequently every returned value lies
within `(-180, 180]` whenever every input lies within `(-180, 540]`. -/
theorem wrap_to_180_one_sided_wrap (lon : List ℚ)
    (h : ∀ v ∈ lon, -180 < v ∧ v ≤ 540) :
    wrap_to_180 lon = lon.map (fun v => if 180 < v then v - 360 else v) ∧
    ∀ w ∈ wrap_to_180 lon, -180 < w ∧ w ≤ 180 := by
  refine ⟨rfl, ?_⟩
  intro w hw
  rw [wrap_to_180, List.mem_map] at hw
  obtain ⟨v, hv, hvw⟩ := hw
  obtain ⟨h1, h2⟩ := h v hv
  by_cases hc : 180 < v
  · rw [if_pos hc] at hvw
    subst hvw
    constructor <;> linarith
  · rw [if_neg hc] at hvw
    subst hvw
    rw [not_lt] at hc
    exact ⟨h1, hc⟩

/-- Witness for C5 at the concrete input `[350, -10]`. -/
theorem wrap_to_180_one_sided_wrap_witness :
    (∀ v ∈ ([350, -10] : List ℚ), -180 < v ∧ v ≤ 540) ∧
    ∀ w ∈ wrap_to_180 [350, -10], -180 < w ∧ w ≤ 180 := by
  have hh : ∀ v ∈ ([350, -10] : List ℚ), -180 < v ∧ v ≤ 540 := by
    intro v hv
    fin_cases hv <;> norm_num
  exact ⟨hh, (wrap_to_180_one_sided_wrap [350, -10] hh).2⟩

/-- C6 counterexample: `wrap_to_180` is not idempotent at `541`:
wrapping once gives `181`, wrapping twice gives `-179`. -/
theorem wrap_to_180_not_idempotent_at_541 :
    wrap_to_180 (wrap_to_180 [541]) = [-179] ∧ wrap_to_180 [541] = [181] ∧
    ([-179] : List ℚ) ≠ [181] := by
  norm_num [wrap_to_180]

/-- C6 amended: `wrap_to_180` is idempotent on every input list whose
entries do not exceed `540`. -/
theorem wrap_to_180_idempotent_below_540 (lon : List ℚ)
    (h : ∀ v ∈ lon, v ≤ 540) :
    wrap_to_180 (wrap_to_180 lon) = wrap_to_180 lon :=
  wrap_to_180_idem lon h

/-- Witness for C6 at the concrete input `[350]`. -/
theorem wrap_to_180_idempotent_below_540_witness :
    (∀ v ∈ ([350] : List ℚ), v ≤ 540) ∧
    wrap_to_180 (wrap_to_180 [350]) = wrap_to_180 [350] := by
  have hh : ∀ v ∈ ([350] : List ℚ), v ≤ 540 := by
    intro v hv
    fin_cases hv <;> norm_num
  exact ⟨hh, wrap_to_180_idempotent_below_540 [350] hh⟩

/-- C7: mismatched flattened lengths of the three query coordinate arrays
make the sampler fail before producing any interpolated value (the ragged
coordinate stack cannot be passed to `map_coordinates`), never silently
broadcasting or truncating. -/
theorem interp3d_detects_mismatched_lengths
    (x y z : List ℚ) (v : Cube) (xi yi zi : NDArray)
    (h : xi.data.length ≠ yi.data.length ∨ yi.data.length ≠ zi.data.length) :
    interp3d x y z v xi yi zi = none := by
  apply interp3d_eq_none
  tauto

/-- Witness for C7: query arrays of lengths `2`, `1`, `1` make `interp3d`
fail. -/
theorem interp3d_detects_mismatched_lengths_witness :
    ((⟨[2], [1, 2]⟩ : NDArray).data.length ≠ (⟨[1], [3]⟩ : NDArray).data.length) ∧
    interp3d [0] [0] [0] [[[0]]] ⟨[2], [1, 2]⟩ ⟨[1], [3]⟩ ⟨[1], [3]⟩ = none := by
  refine ⟨by norm_num, ?_⟩
  exact interp3d_detects_mismatched_lengths [0] [0] [0] [[[0]]] _ _ _
    (Or.inl (by norm_num))

/-- C9 counterexample: one per-file iteration rebinds the shared longitude
axis `x_ibe` in place through `wrap_to_180`, changing the shared cube state
whenever `x_ibe` holds a value above `180`. -/
theorem processFileGlobals_mutates_shared_x_ibe :
    processFileGlobals ⟨[0], [0], [350], [[[1]]]⟩ = ⟨[0], [0], [-10], [[[1]]]⟩ ∧
    (⟨[0], [0], [-10], [[[1]]]⟩ : CubeState) ≠ ⟨[0], [0], [350], [[[1]]]⟩ := by
  constructor
  · norm_num [processFileGlobals, wrap_to_180, CubeState.mk.injEq]
  · intro hc
    rw [CubeState.mk.injEq] at hc
    norm_num at hc

/-- C9 amended: a per-file iteration leaves `t_ibe`, `y_ibe` and the value
cube `z_ibe` unchanged, rebinds `x_ibe` to `wrap_to_180 x_ibe`, and the
shared state is a fixed point from the second iteration on provided the
original longitude axis does not exceed `540`. -/
theorem processFileGlobals_frame_effect (s : CubeState)
    (h : ∀ v ∈ s.x_ibe, v ≤ 540) :
    (processFileGlobals s).t_ibe = s.t_ibe ∧
    (processFileGlobals s).y_ibe = s.y_ibe ∧
    (processFileGlobals s).z_ibe = s.z_ibe ∧
    (processFileGlobals s).x_ibe = wrap_to_180 s.x_ibe ∧
    processFileGlobals (processFileGlobals s) = processFileGlobals s := by
  refine ⟨rfl, rfl, rfl, rfl, ?_⟩
  simp only [processFileGlobals]
  rw [wrap_to_180_idem s.x_ibe h]

/-- Witness for C9 at the concrete shared state `⟨[0],[0],[350],[[[1]]]⟩`. -/
theorem processFileGlobals_frame_effect_witness :
    (∀ v ∈ (⟨[0], [0], [350], [[[1]]]⟩ : CubeState).x_ibe, v ≤ 540) ∧
    ((processFileGlobals ⟨[0], [0], [350], [[[1]]]⟩).t_ibe
        = (⟨[0], [0], [350], [[[1]]]⟩ : CubeState).t_ibe ∧
      (processFileGlobals ⟨[0], [0], [350], [[[1]]]⟩).y_ibe
        = (⟨[0], [0], [350], [[[1]]]⟩ : CubeState).y_ibe ∧
      (processFileGlobals ⟨[0], [0], [350], [[[1]]]⟩).z_ibe
        = (⟨[0], [0], [350], [[[1]]]⟩ : CubeState).z_ibe ∧
      (processFileGlobals ⟨[0], [0], [350], [[[1]]]⟩).x_ibe = wrap_to_180 [350] ∧
      processFileGlobals (processFileGlobals ⟨[0], [0], [350], [[[1]]]⟩)
        = processFileGlobals ⟨[0], [0], [350], [[[1]]]⟩) := by
  have hh : ∀ v ∈ (⟨[0], [0], [350], [[[1]]]⟩ : CubeState).x_ibe, v ≤ 540 := by
    intro v hv
    fin_cases hv <;> norm_num
  exact ⟨hh, processFileGlobals_frame_effect ⟨[0], [0], [350], [[[1]]]⟩ hh⟩

/-- C10: `interp3d` takes its restored output shape solely from `xi` and
returns the caller's query arrays flattened to one dimension; with equal
flattened lengths the call succeeds, the result carries `xi`'s original
shape regardless of `yi`'s and `zi`'s shapes, and all three query arrays
come back one-dimensional. -/
theorem interp3d_flattens_in_place_and_uses_xi_shape
    (x y z : List ℚ) (v : Cube) (xi yi zi : NDArray)
    (h1 : xi.data.length = yi.data.length) (h2 : yi.data.length = zi.data.length) :
    ∃ out, interp3d x y z v xi yi zi
        = some (out, ⟨[xi.data.length], xi.data⟩, ⟨[yi.data.length], yi.data⟩,
            ⟨[zi.data.length], zi.data⟩)
      ∧ out.shape = xi.shape :=
  ⟨_, interp3d_eq_some x y z v xi yi zi h1 h2, rfl⟩

/-- Witness for C10: queries of shapes `(2,3)`, `(6,)` and `(3,2)` with six
elements each produce an output of shape `(2,3)` (`xi`'s shape) and leave
all three query arrays flattened to shape `(6,)`. -/
theorem interp3d_flattens_in_place_and_uses_xi_shape_witness :
    ((⟨[2, 3], [1, 2, 3, 4, 5, 6]⟩ : NDArray).data.length
      = (⟨[6], [1, 2, 3, 4, 5, 6]⟩ : NDArray).data.length) ∧
    ∃ out, interp3d [0] [0] [0] [[[0]]] ⟨[2, 3], [1, 2, 3, 4, 5, 6]⟩
          ⟨[6], [1, 2, 3, 4, 5, 6]⟩ ⟨[3, 2], [1, 2, 3, 4, 5, 6]⟩
        = some (out, ⟨[6], [1, 2, 3, 4, 5, 6]⟩, ⟨[6], [1, 2, 3, 4, 5, 6]⟩,
            ⟨[6], [1, 2, 3, 4, 5, 6]⟩)
      ∧ out.shape = [2, 3] := by
  refine ⟨rfl, ?_⟩
  exact interp3d_flattens_in_place_and_uses_xi_shape [0] [0] [0] [[[0]]] _ _ _ rfl rfl

end Ibecor

namespace ConvertXyLl

/-- C8: the PSNorth backward transform is documented to return `(lon, lat)`
with negative longitudes wrapped into `[0, 360)`; the code instead computes
the latitude into the first slot and the longitude into the second, and
applies the `+360` wrap to the first (latitude) slot.  For the projected
point of `(lon, lat) = (-90, 45)` — namely `(x, y) = (0, -5026.5)` — the
backward branch returns `(45, -90)`, not `(270, 45)`. -/
theorem xy_ll_PSNorth_backward_returns_lat_lon :
    xy_ll_PSNorth_F (-90) 45 = (0, -(10053 / 2)) ∧
    xy_ll_PSNorth_B 0 (-(10053 / 2)) = (45, -90) ∧
    ((45 : ℝ), (-90 : ℝ)) ≠ ((270 : ℝ), (45 : ℝ)) := by
  refine ⟨?_, ?_, ?_⟩
  · unfold xy_ll_PSNorth_F
    have harg : (-90 : ℝ) / 180 * Real.pi = -(Real.pi / 2) := by ring
    rw [harg, Real.cos_neg, Real.cos_pi_div_two, Real.sin_neg, Real.sin_pi_div_two]
    norm_num
  · unfold xy_ll_PSNorth_B
    have hsqrt : Real.sqrt ((0 : ℝ) ^ 2 + (-(10053 / 2)) ^ 2) = 10053 / 2 := by
      rw [show ((0 : ℝ) ^ 2 + (-(10053 / 2)) ^ 2) = (10053 / 2) ^ 2 by ring]
      exact Real.sqrt_sq (by norm_num)
    have harg : (((0 : ℝ) : ℂ) + ((-(10053 / 2) : ℝ) : ℂ) * Complex.I).arg
        = -(Real.pi / 2) := by
      rw [Complex.arg_eq_neg_pi_div_two_iff]
      constructor <;> simp
    have ho2 : -(Real.pi / 2) * 180 / Real.pi = -90 := by
      field_simp
      ring
    rw [hsqrt, harg]
    rw [show (90 : ℝ) - 10053 / 2 / (1117 / 10) = 45 by norm_num]
    rw [ho2]
    norm_num
  · intro hc
    rw [Prod.mk.injEq] at hc
    norm_num at hc

end ConvertXyLl
